import Mathlib

/-!
Verification development for the devnetjobs scraper pipeline
(`src/scraper.ts`, `src/import-to-neon.ts`, `src/types.ts`).

Strings are embedded as `List Char` (`Str`); machine integers of the id
space as `Int`; fallible external calls (page fetches, store round trips)
as `Except Unit _` valued oracles supplied as parameters.  The async batch
loops of the source are embedded as fuelled/structural recursions: each
`Promise.all` batch resolves to a list of results whose observation order
is an arbitrary permutation chosen by a `Scheduler` parameter.
-/

namespace DevnetScraper

/-- Embedded JS strings. -/
abbrev Str := List Char

/-- JS `s.includes(pat)`: `pat` occurs as a contiguous substring of `s`. -/
def strIncludes (s pat : Str) : Bool :=
  match s with
  | [] => pat.isPrefixOf ([] : Str)
  | _ :: rest => pat.isPrefixOf s || strIncludes rest pat

/-! ## IDScanner (`scanJobIdsParallel`, src/scraper.ts lines 117-175) -/

/-- The `scanConcurrency` constant of `scanJobIdsParallel`: the batch size. -/
def scanConcurrency : Nat := 10

/-- The `maxConsecutiveInvalid` constant: the stopping threshold. -/
def maxConsecutiveInvalid : Nat := 100

/-- The loop state of `scanJobIdsParallel`: the accumulated valid ids (in push
order; the source pushes `id.toString()`, an order- and membership-preserving
bijection on ids, so ids are kept as integers here) and the
consecutive-invalid counter. -/
structure ScanState where
  jobIds : List Int
  consecutiveInvalid : Nat
deriving DecidableEq, Repr

/-- The JS truthiness guard `limit && jobIds.length >= limit`: an absent
`limit` and `limit = 0` are both falsy. -/
def limitHit (limit : Option Nat) (n : Nat) : Bool :=
  match limit with
  | none => false
  | some l => decide (l ≠ 0) && decide (l ≤ n)

/-- The `for (const res of chunkResults)` body of `scanJobIdsParallel`:
per result, first the limit check, then the valid/invalid update, then the
consecutive-invalid threshold check; the returned flag is `keepScanning`. -/
def processResults (limit : Option Nat) :
    List (Int × Bool) → ScanState → ScanState × Bool
  | [], st => (st, true)
  | r :: rest, st =>
    if limitHit limit st.jobIds.length then (st, false)
    else
      let st' : ScanState :=
        if r.2 then ⟨st.jobIds ++ [r.1], 0⟩
        else ⟨st.jobIds, st.consecutiveInvalid + 1⟩
      if maxConsecutiveInvalid ≤ st'.consecutiveInvalid then (st', false)
      else processResults limit rest st'

/-- The batch id list: currentId, currentId - 1, ..., down to
currentId - scanConcurrency + 1, as built by the source's Array.from call. -/
def chunkIds (currentId : Int) : List Int :=
  (List.range scanConcurrency).map (fun (i : Nat) => currentId - (i : Int))

/-- One batch of probes: each id paired with its validity verdict
(`isValidJobId` downgrades every fetch failure to `false`, so a probe is a
total boolean oracle). -/
def probeChunk (probe : Int → Bool) (currentId : Int) : List (Int × Bool) :=
  (chunkIds currentId).map (fun id => (id, probe id))

/-- The `chunkResults.sort((a, b) => b.id - a.id)` call: sort by id descending.
The batch ids are pairwise distinct, so any comparison sort returns the same
list; insertion sort is used as the executable model. -/
def sortDesc (l : List (Int × Bool)) : List (Int × Bool) :=
  List.insertionSort (fun a b => b.1 ≤ a.1) l

/-- A completion-order scheduler: for each batch (identified by its leading
id) the order in which the batch's probe results are delivered. -/
def Scheduler : Type := Int → List (Int × Bool) → List (Int × Bool)

/-- Every physically possible completion order delivers a permutation of the
batch. -/
def validScheduler (sched : Scheduler) : Prop :=
  ∀ c l, List.Perm (sched c l) l

/-- The batch's results as the loop observes them: probed, delivered in the
scheduler's completion order, then re-sorted descending. -/
def sortedBatch (probe : Int → Bool) (sched : Scheduler) (c : Int) :
    List (Int × Bool) :=
  sortDesc (sched c (probeChunk probe c))

/-- The `while (keepScanning)` loop of `scanJobIdsParallel`, fuelled (the
source loop need not terminate for an always-valid oracle without a limit;
every claim below is fuel-generic or assumes enough fuel). -/
def scanLoop (probe : Int → Bool) (sched : Scheduler) (limit : Option Nat) :
    Nat → Int → ScanState → ScanState
  | 0, _, st => st
  | fuel + 1, currentId, st =>
    match processResults limit (sortedBatch probe sched currentId) st with
    | (st', true) =>
        scanLoop probe sched limit fuel (currentId - (scanConcurrency : Int)) st'
    | (st', false) => st'

/-- The value of `scanJobIdsParallel(browser, startId, limit)`: the ordered list
of valid ids. -/
def scanJobIdsParallel (probe : Int → Bool) (sched : Scheduler) (startId : Int)
    (limit : Option Nat) (fuel : Nat) : List Int :=
  (scanLoop probe sched limit fuel startId ⟨[], 0⟩).jobIds

/-! ### Basic facts about batches and the sort -/

theorem chunkIds_length (c : Int) : (chunkIds c).length = scanConcurrency := by
  rw [chunkIds, List.length_map, List.length_range]

theorem mem_chunkIds {c x : Int} : x ∈ chunkIds c ↔ c - 9 ≤ x ∧ x ≤ c := by
  rw [chunkIds, List.mem_map]
  constructor
  · rintro ⟨i, hi, rfl⟩
    rw [List.mem_range] at hi
    have hi10 : i < 10 := hi
    omega
  · rintro ⟨h1, h2⟩
    refine ⟨(c - x).toNat, List.mem_range.mpr ?_, by omega⟩
    show (c - x).toNat < 10
    omega

theorem chunkIds_nodup (c : Int) : (chunkIds c).Nodup := by
  rw [chunkIds]
  exact (List.nodup_range _).map (fun i j h => by omega)

theorem probeChunk_keys (probe : Int → Bool) (c : Int) :
    (probeChunk probe c).map Prod.fst = chunkIds c := by
  rw [probeChunk, List.map_map]
  exact List.map_id' _

theorem probeChunk_length (probe : Int → Bool) (c : Int) :
    (probeChunk probe c).length = scanConcurrency := by
  rw [probeChunk, List.length_map, chunkIds_length]

theorem mem_probeChunk {probe : Int → Bool} {c : Int} {p : Int × Bool} :
    p ∈ probeChunk probe c ↔ p.1 ∈ chunkIds c ∧ p.2 = probe p.1 := by
  cases p with
  | mk x b =>
    simp only [probeChunk, List.mem_map]
    constructor
    · rintro ⟨i, hi, h⟩
      cases h
      exact ⟨hi, rfl⟩
    · rintro ⟨hx, rfl⟩
      exact ⟨x, hx, rfl⟩

instance : IsTotal (Int × Bool) (fun a b => b.1 ≤ a.1) :=
  ⟨fun a b => le_total b.1 a.1⟩

instance : IsTrans (Int × Bool) (fun a b => b.1 ≤ a.1) :=
  ⟨fun _ _ _ h1 h2 => le_trans h2 h1⟩

theorem sortDesc_perm (l : List (Int × Bool)) : List.Perm (sortDesc l) l :=
  List.perm_insertionSort _ l

theorem sortDesc_sorted (l : List (Int × Bool)) :
    List.Sorted (fun a b => b.1 ≤ a.1) (sortDesc l) :=
  List.sorted_insertionSort _ l

/-- With pairwise-distinct keys the sorted batch is strictly descending. -/
theorem sortDesc_pairwise_lt {l : List (Int × Bool)}
    (h : (l.map Prod.fst).Nodup) :
    (sortDesc l).Pairwise (fun a b => b.1 < a.1) := by
  have hs : (sortDesc l).Pairwise (fun a b => b.1 ≤ a.1) := sortDesc_sorted l
  have hn : ((sortDesc l).map Prod.fst).Nodup :=
    ((sortDesc_perm l).map Prod.fst).nodup_iff.mpr h
  have hne : (sortDesc l).Pairwise (fun a b => a.1 ≠ b.1) :=
    List.pairwise_map.mp hn
  exact (hs.and hne).imp (fun hab => lt_of_le_of_ne hab.1 (Ne.symm hab.2))

/-! ### Facts about a delivered batch under any valid scheduler -/

theorem sortedBatch_perm {sched : Scheduler} (hs : validScheduler sched)
    (probe : Int → Bool) (c : Int) :
    List.Perm (sortedBatch probe sched c) (probeChunk probe c) :=
  (sortDesc_perm _).trans (hs c _)

theorem mem_sortedBatch {sched : Scheduler} (hs : validScheduler sched)
    {probe : Int → Bool} {c : Int} {p : Int × Bool} :
    p ∈ sortedBatch probe sched c ↔ p.1 ∈ chunkIds c ∧ p.2 = probe p.1 := by
  rw [(sortedBatch_perm hs probe c).mem_iff]
  exact mem_probeChunk

theorem sortedBatch_length {sched : Scheduler} (hs : validScheduler sched)
    (probe : Int → Bool) (c : Int) :
    (sortedBatch probe sched c).length = scanConcurrency := by
  rw [(sortedBatch_perm hs probe c).length_eq, probeChunk_length]

theorem sortedBatch_pairwise {sched : Scheduler} (hs : validScheduler sched)
    (probe : Int → Bool) (c : Int) :
    (sortedBatch probe sched c).Pairwise (fun a b => b.1 < a.1) := by
  apply sortDesc_pairwise_lt
  have hperm : List.Perm ((sched c (probeChunk probe c)).map Prod.fst)
      ((probeChunk probe c).map Prod.fst) := (hs c _).map Prod.fst
  rw [hperm.nodup_iff, probeChunk_keys]
  exact chunkIds_nodup c

/-! ### `processResults` step lemmas and invariants -/

theorem processResults_limit_stop {limit : Option Nat} {st : ScanState}
    (r : Int × Bool) (rest : List (Int × Bool))
    (hl : limitHit limit st.jobIds.length = true) :
    processResults limit (r :: rest) st = (st, false) := by
  rw [processResults, if_pos hl]

theorem processResults_valid {limit : Option Nat} {st : ScanState}
    (rid : Int) (rest : List (Int × Bool))
    (hl : limitHit limit st.jobIds.length = false) :
    processResults limit ((rid, true) :: rest) st =
      processResults limit rest ⟨st.jobIds ++ [rid], 0⟩ := by
  rw [processResults, hl]
  simp [maxConsecutiveInvalid]

theorem processResults_invalid {limit : Option Nat} {st : ScanState}
    (rid : Int) (rest : List (Int × Bool))
    (hl : limitHit limit st.jobIds.length = false)
    (hm : st.consecutiveInvalid + 1 < maxConsecutiveInvalid) :
    processResults limit ((rid, false) :: rest) st =
      processResults limit rest ⟨st.jobIds, st.consecutiveInvalid + 1⟩ := by
  rw [processResults, hl]
  simp only [Bool.false_eq_true, if_false, reduceIte]
  rw [if_neg (by omega)]

theorem processResults_invalid_stop {limit : Option Nat} {st : ScanState}
    (rid : Int) (rest : List (Int × Bool))
    (hl : limitHit limit st.jobIds.length = false)
    (hm : maxConsecutiveInvalid ≤ st.consecutiveInvalid + 1) :
    processResults limit ((rid, false) :: rest) st =
      (⟨st.jobIds, st.consecutiveInvalid + 1⟩, false) := by
  rw [processResults, hl]
  simp only [Bool.false_eq_true, if_false, reduceIte]
  rw [if_pos hm]

/-- The per-batch fold only appends, and every appended id was delivered as a
valid result of the batch. -/
theorem processResults_jobIds (limit : Option Nat) :
    ∀ (l : List (Int × Bool)) (st : ScanState),
    ∃ ext, (processResults limit l st).1.jobIds = st.jobIds ++ ext ∧
      ∀ x ∈ ext, (x, true) ∈ l
  | [], st => ⟨[], by simp [processResults]⟩
  | ⟨rid, rv⟩ :: rest, st => by
    by_cases hl : limitHit limit st.jobIds.length
    · exact ⟨[], by rw [processResults_limit_stop _ _ hl]; simp⟩
    · rw [Bool.not_eq_true] at hl
      cases rv
      · by_cases hm : maxConsecutiveInvalid ≤ st.consecutiveInvalid + 1
        · exact ⟨[], by rw [processResults_invalid_stop _ _ hl hm]; simp⟩
        · obtain ⟨ext, hext, hmem⟩ :=
            processResults_jobIds limit rest ⟨st.jobIds, st.consecutiveInvalid + 1⟩
          rw [processResults_invalid _ _ hl (by omega)]
          exact ⟨ext, hext, fun x hx => List.mem_cons_of_mem _ (hmem x hx)⟩
      · obtain ⟨ext, hext, hmem⟩ :=
          processResults_jobIds limit rest ⟨st.jobIds ++ [rid], 0⟩
        rw [processResults_valid _ _ hl]
        refine ⟨rid :: ext, by rw [hext]; simp, ?_⟩
        intro x hx
        rcases List.mem_cons.mp hx with h | h
        · subst h
          exact List.mem_cons_self _ rest
        · exact List.mem_cons_of_mem _ (hmem x h)

/-- Folding a strictly descending batch whose ids all lie below the already
accumulated ids keeps the accumulated list strictly descending. -/
theorem processResults_pairwise (limit : Option Nat) :
    ∀ (l : List (Int × Bool)) (st : ScanState),
    l.Pairwise (fun a b => b.1 < a.1) →
    st.jobIds.Pairwise (fun a b => b < a) →
    (∀ x ∈ st.jobIds, ∀ p ∈ l, p.1 < x) →
    (processResults limit l st).1.jobIds.Pairwise (fun a b => b < a)
  | [], st => fun _ hst _ => hst
  | ⟨rid, rv⟩ :: rest, st => by
    intro hl hst hsep
    rcases List.pairwise_cons.mp hl with ⟨hr, hrest⟩
    by_cases hlim : limitHit limit st.jobIds.length
    · rw [processResults_limit_stop _ _ hlim]
      exact hst
    · rw [Bool.not_eq_true] at hlim
      cases rv
      · by_cases hm : maxConsecutiveInvalid ≤ st.consecutiveInvalid + 1
        · rw [processResults_invalid_stop _ _ hlim hm]
          exact hst
        · rw [processResults_invalid _ _ hlim (by omega)]
          apply processResults_pairwise limit rest
            ⟨st.jobIds, st.consecutiveInvalid + 1⟩ hrest hst
          intro x hx p hp
          exact hsep x hx p (List.mem_cons_of_mem _ hp)
      · have hpush : (st.jobIds ++ [rid]).Pairwise (fun a b => b < a) := by
          rw [List.pairwise_append]
          refine ⟨hst, List.pairwise_singleton _ _, ?_⟩
          intro a ha b hb
          rw [List.mem_singleton] at hb
          subst hb
          exact hsep a ha _ (List.mem_cons_self _ rest)
        rw [processResults_valid _ _ hlim]
        apply processResults_pairwise limit rest ⟨st.jobIds ++ [rid], 0⟩ hrest hpush
        intro x hx p hp
        rcases List.mem_append.mp hx with h | h
        · exact hsep x h p (List.mem_cons_of_mem _ hp)
        · rw [List.mem_singleton] at h
          subst h
          exact hr p hp

/-! ### The scan output is strictly descending (claim C1) -/

theorem scanLoop_pairwise {probe : Int → Bool} {sched : Scheduler}
    (hs : validScheduler sched) (limit : Option Nat) :
    ∀ (fuel : Nat) (c : Int) (st : ScanState),
    st.jobIds.Pairwise (fun a b => b < a) →
    (∀ x ∈ st.jobIds, c < x) →
    (scanLoop probe sched limit fuel c st).jobIds.Pairwise (fun a b => b < a)
  | 0, _, _ => fun hst _ => hst
  | fuel + 1, c, st => by
    intro hst hbound
    rw [scanLoop]
    have hsep : ∀ x ∈ st.jobIds, ∀ p ∈ sortedBatch probe sched c, p.1 < x := by
      intro x hx p hp
      have hc : p.1 ≤ c := (mem_chunkIds.mp ((mem_sortedBatch hs).mp hp).1).2
      exact lt_of_le_of_lt hc (hbound x hx)
    have hpair := processResults_pairwise limit (sortedBatch probe sched c) st
      (sortedBatch_pairwise hs probe c) hst hsep
    obtain ⟨ext, hext, hmem⟩ :=
      processResults_jobIds limit (sortedBatch probe sched c) st
    rcases hres : processResults limit (sortedBatch probe sched c) st with ⟨st', keep⟩
    rw [hres] at hpair hext
    cases keep
    · exact hpair
    · apply scanLoop_pairwise hs limit fuel _ st' hpair
      intro x hx
      rw [hext] at hx
      have h10 : ((scanConcurrency : Nat) : Int) = 10 := rfl
      rcases List.mem_append.mp hx with h | h
      · have := hbound x h
        omega
      · have h9 : c - 9 ≤ x :=
          (mem_chunkIds.mp ((mem_sortedBatch hs).mp (hmem x h)).1).1
        omega

/-- Claim C1: for every starting identifier, every limit, every validity
oracle and every within-batch completion order, the id sequence returned by
`scanJobIdsParallel` is strictly descending by identifier value. -/
theorem scan_output_strictly_descending (probe : Int → Bool) (sched : Scheduler)
    (hs : validScheduler sched) (startId : Int) (limit : Option Nat)
    (fuel : Nat) :
    (scanJobIdsParallel probe sched startId limit fuel).Pairwise
      (fun a b => b < a) :=
  scanLoop_pairwise hs limit fuel startId ⟨[], 0⟩ (List.Pairwise.nil)
    (fun x hx => absurd hx (List.not_mem_nil x))

/-- Witness for C1: a concrete run (reversed completion order, limit 4). -/
theorem scan_output_strictly_descending_witness :
    (scanJobIdsParallel (fun id => decide (0 < id)) (fun _ l => l.reverse) 15
      (some 4) 2).Pairwise (fun a b => b < a) :=
  scan_output_strictly_descending _ _ (fun _ l => List.reverse_perm l) 15
    (some 4) 2

/-! ### All-invalid windows and the stopping rule (claim C2) -/

theorem limitHit_zero (limit : Option Nat) : limitHit limit 0 = false := by
  cases limit with
  | none => rfl
  | some l =>
    by_cases h : l = 0 <;> simp [limitHit, h, Nat.le_zero]

theorem processResults_allFalse_continue (limit : Option Nat) :
    ∀ (l : List (Int × Bool)) (ids : List Int) (ci : Nat),
    (∀ p ∈ l, p.2 = false) →
    limitHit limit ids.length = false →
    ci + l.length < maxConsecutiveInvalid →
    processResults limit l ⟨ids, ci⟩ = (⟨ids, ci + l.length⟩, true)
  | [], ids, ci => by
    intro _ _ _
    rfl
  | ⟨rid, rv⟩ :: rest, ids, ci => by
    intro hall hl hlt
    have hv : rv = false := hall _ (List.mem_cons_self _ _)
    subst hv
    rw [List.length_cons] at hlt
    rw [processResults_invalid _ _ hl (by show ci + 1 < maxConsecutiveInvalid; omega)]
    rw [processResults_allFalse_continue limit rest ids (ci + 1)
      (fun p hp => hall p (List.mem_cons_of_mem _ hp)) hl (by omega)]
    have harith : ci + 1 + rest.length = ci + (rest.length + 1) := by omega
    rw [List.length_cons]
    exact congrArg (fun n => ((⟨ids, n⟩ : ScanState), true)) harith

theorem processResults_allFalse_stop (limit : Option Nat) :
    ∀ (l : List (Int × Bool)) (ids : List Int) (ci : Nat),
    (∀ p ∈ l, p.2 = false) →
    limitHit limit ids.length = false →
    ci < maxConsecutiveInvalid →
    maxConsecutiveInvalid ≤ ci + l.length →
    processResults limit l ⟨ids, ci⟩ = (⟨ids, maxConsecutiveInvalid⟩, false)
  | [], ids, ci => by
    intro _ _ hlt hge
    rw [List.length_nil] at hge
    omega
  | ⟨rid, rv⟩ :: rest, ids, ci => by
    intro hall hl hlt hge
    have hv : rv = false := hall _ (List.mem_cons_self _ _)
    subst hv
    rw [List.length_cons] at hge
    by_cases hm : maxConsecutiveInvalid ≤ ci + 1
    · rw [processResults_invalid_stop _ _ hl hm]
      have harith : ci + 1 = maxConsecutiveInvalid := by omega
      exact congrArg (fun n => ((⟨ids, n⟩ : ScanState), false)) harith
    · rw [processResults_invalid _ _ hl
        (by show ci + 1 < maxConsecutiveInvalid; omega)]
      exact processResults_allFalse_stop limit rest ids (ci + 1)
        (fun p hp => hall p (List.mem_cons_of_mem _ hp)) hl (by omega) (by omega)

/-- After `n` fully invalid batches (counter at `10 * n`), a window of
`10 - n` further all-invalid batches drives the counter to the threshold and
stops the scan with an unchanged (empty) output. -/
theorem scanLoop_allFalse {probe : Int → Bool} {sched : Scheduler}
    (hs : validScheduler sched) (limit : Option Nat) (startId : Int) :
    ∀ (fuel n : Nat), n ≤ 9 → 10 - n ≤ fuel →
    (∀ id : Int, startId - 99 ≤ id → id ≤ startId → probe id = false) →
    scanLoop probe sched limit fuel (startId - 10 * n) ⟨[], 10 * n⟩ =
      ⟨[], maxConsecutiveInvalid⟩ := by
  intro fuel
  induction fuel with
  | zero =>
    intro n hn hf _
    omega
  | succ fuel ih =>
    intro n hn hf hprobe
    rw [scanLoop]
    have hallfalse :
        ∀ p ∈ sortedBatch probe sched (startId - 10 * n), p.2 = false := by
      intro p hp
      obtain ⟨hmem, hval⟩ := (mem_sortedBatch hs).mp hp
      obtain ⟨h1, h2⟩ := mem_chunkIds.mp hmem
      rw [hval]
      exact hprobe p.1 (by omega) (by omega)
    have hlen : (sortedBatch probe sched (startId - 10 * n)).length = 10 :=
      sortedBatch_length hs probe _
    by_cases hn9 : n = 9
    · subst hn9
      rw [processResults_allFalse_stop limit _ [] (10 * 9) hallfalse
        (limitHit_zero limit)
        (by unfold maxConsecutiveInvalid; omega)
        (by rw [hlen]; unfold maxConsecutiveInvalid; omega)]
    · rw [processResults_allFalse_continue limit _ [] (10 * n) hallfalse
        (limitHit_zero limit)
        (by rw [hlen]; unfold maxConsecutiveInvalid; omega)]
      rw [hlen]
      show scanLoop probe sched limit fuel
        (startId - 10 * n - (scanConcurrency : Int)) ⟨[], 10 * n + 10⟩ = _
      have hc : startId - 10 * n - (scanConcurrency : Int) =
          startId - 10 * (n + 1 : Nat) := by
        rw [show ((scanConcurrency : Nat) : Int) = 10 from rfl]
        push_cast
        ring
      have hci : 10 * n + 10 = 10 * (n + 1) := by omega
      rw [hc, hci]
      exact ih (n + 1) (by omega) (by omega) hprobe

/-- Claim C2: with the `T = 100` ids below (and including) the start all
invalid, the scan stops exactly at the threshold boundary: the output is
empty and in particular the (possibly valid) id `startId - 100` just past
the boundary is never reported, whatever the oracle says below the window
and however batch results complete. -/
theorem scan_stops_at_invalid_threshold (probe : Int → Bool) (sched : Scheduler)
    (hs : validScheduler sched) (startId : Int) (limit : Option Nat)
    (fuel : Nat) (hfuel : 10 ≤ fuel)
    (hwindow : ∀ id : Int, startId - 99 ≤ id → id ≤ startId → probe id = false) :
    scanJobIdsParallel probe sched startId limit fuel = [] ∧
      startId - 100 ∉ scanJobIdsParallel probe sched startId limit fuel := by
  have h := scanLoop_allFalse hs limit startId fuel 0 (by omega) (by omega)
    hwindow
  have h0 : startId - 10 * (0 : Nat) = startId := by push_cast; ring
  rw [h0] at h
  have hout : scanJobIdsParallel probe sched startId limit fuel = [] := by
    show (scanLoop probe sched limit fuel startId ⟨[], 0⟩).jobIds = []
    rw [show (10 * 0 : Nat) = 0 from rfl] at h
    rw [h]
  exact ⟨hout, by rw [hout]; exact List.not_mem_nil _⟩

/-- Witness for C2: ids 901..1000 invalid, 900 valid but never reported. -/
theorem scan_stops_at_invalid_threshold_witness :
    scanJobIdsParallel (fun id => decide (id ≤ 900)) (fun _ l => l) 1000 none
        10 = [] ∧
      (1000 - 100 : Int) ∉ scanJobIdsParallel (fun id => decide (id ≤ 900))
        (fun _ l => l) 1000 none 10 :=
  scan_stops_at_invalid_threshold _ _ (fun _ l => List.Perm.refl l) 1000 none
    10 (by omega)
    (fun id h1 h2 => by
      simp only [decide_eq_false_iff_not]
      omega)

/-! ### `limit = 0` behaves as no limit (claim C9) -/

theorem processResults_zero_limit :
    ∀ (l : List (Int × Bool)) (st : ScanState),
    processResults (some 0) l st = processResults none l st := by
  intro l
  induction l with
  | nil => intro st; rfl
  | cons r rest ih =>
    intro st
    rw [processResults, processResults]
    rw [show limitHit (some 0) st.jobIds.length = false from rfl]
    rw [show limitHit none st.jobIds.length = false from rfl]
    simp only [Bool.false_eq_true, if_false, reduceIte]
    by_cases hm : maxConsecutiveInvalid ≤
        ((if r.2 then (⟨st.jobIds ++ [r.1], 0⟩ : ScanState)
          else ⟨st.jobIds, st.consecutiveInvalid + 1⟩) : ScanState).consecutiveInvalid
    · rw [if_pos hm, if_pos hm]
    · rw [if_neg hm, if_neg hm]
      exact ih _

theorem scanLoop_zero_limit {probe : Int → Bool} {sched : Scheduler} :
    ∀ (fuel : Nat) (c : Int) (st : ScanState),
    scanLoop probe sched (some 0) fuel c st =
      scanLoop probe sched none fuel c st := by
  intro fuel
  induction fuel with
  | zero => intro c st; rfl
  | succ fuel ih =>
    intro c st
    rw [scanLoop, scanLoop, processResults_zero_limit]
    rcases hres : processResults none (sortedBatch probe sched c) st
      with ⟨st', keep⟩
    cases keep
    · rfl
    · exact ih _ _

/-- Claim C9: a supplied `limit` of `0` is falsy in the guard
`limit && jobIds.length >= limit`, so it behaves exactly like an absent
limit: the scan only stops via the consecutive-invalid rule and returns
every valid id found, rather than returning an empty output. -/
theorem scan_zero_limit_ignored (probe : Int → Bool) (sched : Scheduler)
    (startId : Int) (fuel : Nat) :
    scanJobIdsParallel probe sched startId (some 0) fuel =
      scanJobIdsParallel probe sched startId none fuel := by
  show (scanLoop probe sched (some 0) fuel startId ⟨[], 0⟩).jobIds = _
  rw [scanLoop_zero_limit]
  rfl

/-! ### Limit enforcement (claim C3) -/

theorem limitHit_some_true {k n : Nat} (hk : k ≠ 0) (hn : k ≤ n) :
    limitHit (some k) n = true := by
  show (decide (k ≠ 0) && decide (k ≤ n)) = true
  rw [decide_eq_true hk, decide_eq_true hn, Bool.and_self]

theorem limitHit_some_false {k n : Nat} (hn : n < k) :
    limitHit (some k) n = false := by
  show (decide (k ≠ 0) && decide (k ≤ n)) = false
  rw [decide_eq_false (by omega : ¬(k ≤ n)), Bool.and_false]

theorem take_append_le {α : Type} {l₁ l₂ : List α} {n : Nat}
    (h : n ≤ l₁.length) : (l₁ ++ l₂).take n = l₁.take n := by
  rw [List.take_append_eq_append_take, Nat.sub_eq_zero_of_le h, List.take_zero,
    List.append_nil]

/-- Once the accumulated count has reached a non-zero limit, the very first
result of any further batch trips the limit guard. -/
theorem processResults_limitReached {k : Nat} {st : ScanState} (hk : k ≠ 0)
    (hn : k ≤ st.jobIds.length) (r : Int × Bool) (rest : List (Int × Bool)) :
    processResults (some k) (r :: rest) st = (st, false) :=
  processResults_limit_stop r rest (limitHit_some_true hk hn)

/-- The scan loop only ever appends to the accumulated id list. -/
theorem scanLoop_jobIds (probe : Int → Bool) (sched : Scheduler)
    (limit : Option Nat) :
    ∀ (fuel : Nat) (c : Int) (st : ScanState),
    ∃ ext, (scanLoop probe sched limit fuel c st).jobIds = st.jobIds ++ ext := by
  intro fuel
  induction fuel with
  | zero =>
    intro c st
    exact ⟨[], (List.append_nil _).symm⟩
  | succ fuel ih =>
    intro c st
    rw [scanLoop]
    obtain ⟨ext1, hext1, _⟩ :=
      processResults_jobIds limit (sortedBatch probe sched c) st
    rcases hres : processResults limit (sortedBatch probe sched c) st
      with ⟨st', keep⟩
    rw [hres] at hext1
    cases keep
    · exact ⟨ext1, hext1⟩
    · obtain ⟨ext2, hext2⟩ := ih (c - (scanConcurrency : Int)) st'
      exact ⟨ext1 ++ ext2, by rw [hext2, hext1, List.append_assoc]⟩

/-- One batch, limited run versus unlimited run, starting below the limit:
either the two runs stay in lock-step below the limit (or stop identically),
or the limited run freezes at exactly `k` ids — a prefix of the unlimited
run's ids — and stops, or the `k`-th id arrives with the very last result of
the batch, leaving both runs in the same state with the keep-flag still set. -/
theorem processResults_limit_vs_none (k : Nat) (hk : k ≠ 0) :
    ∀ (l : List (Int × Bool)) (st : ScanState), st.jobIds.length < k →
    (processResults (some k) l st = processResults none l st ∧
      (processResults none l st).1.jobIds.length < k) ∨
    ((processResults (some k) l st).1.jobIds =
        (processResults none l st).1.jobIds.take k ∧
      (processResults (some k) l st).1.jobIds.length = k ∧
      (processResults (some k) l st).2 = false) ∨
    (processResults (some k) l st = processResults none l st ∧
      (processResults (some k) l st).1.jobIds.length = k ∧
      (processResults (some k) l st).2 = true)
  | [], st => by
    intro hlen
    exact Or.inl ⟨rfl, hlen⟩
  | ⟨rid, rv⟩ :: rest, st => by
    intro hlen
    have hl : limitHit (some k) st.jobIds.length = false := limitHit_some_false hlen
    have hl' : limitHit none st.jobIds.length = false := rfl
    cases rv
    · by_cases hm : maxConsecutiveInvalid ≤ st.consecutiveInvalid + 1
      · rw [processResults_invalid_stop _ _ hl hm,
          processResults_invalid_stop _ _ hl' hm]
        exact Or.inl ⟨rfl, hlen⟩
      · rw [processResults_invalid _ _ hl (by omega),
          processResults_invalid _ _ hl' (by omega)]
        exact processResults_limit_vs_none k hk rest _ hlen
    · rw [processResults_valid _ _ hl, processResults_valid _ _ hl']
      by_cases hk1 : st.jobIds.length + 1 < k
      · exact processResults_limit_vs_none k hk rest ⟨st.jobIds ++ [rid], 0⟩
          (by rw [List.length_append, List.length_singleton]; omega)
      · have hkk : (st.jobIds ++ [rid]).length = k := by
          rw [List.length_append, List.length_singleton]
          omega
        cases rest with
        | nil =>
          exact Or.inr (Or.inr ⟨rfl, hkk, rfl⟩)
        | cons r2 rest2 =>
          rw [processResults_limitReached hk (le_of_eq hkk.symm) r2 rest2]
          obtain ⟨ext, hext, _⟩ :=
            processResults_jobIds none (r2 :: rest2) ⟨st.jobIds ++ [rid], 0⟩
          refine Or.inr (Or.inl ⟨?_, hkk, rfl⟩)
          rw [hext]
          show st.jobIds ++ [rid] = ((st.jobIds ++ [rid]) ++ ext).take k
          rw [take_append_le (le_of_eq hkk.symm), ← hkk, List.take_length]

/-- Once the limited run holds `k ≥ 1` ids, further batches never change its
output. -/
theorem scanLoop_limitReached {probe : Int → Bool} {sched : Scheduler}
    (hs : validScheduler sched) (k : Nat) (hk : k ≠ 0) :
    ∀ (fuel : Nat) (c : Int) (st : ScanState), k ≤ st.jobIds.length →
    (scanLoop probe sched (some k) fuel c st).jobIds = st.jobIds := by
  intro fuel
  induction fuel with
  | zero => intro c st _; rfl
  | succ fuel ih =>
    intro c st hn
    rw [scanLoop]
    rcases hb : sortedBatch probe sched c with _ | ⟨r, rest⟩
    · have hlenB := sortedBatch_length hs probe c
      rw [hb] at hlenB
      exact absurd hlenB (by simp [scanConcurrency])
    · rw [processResults_limitReached hk hn r rest]

theorem scanLoop_succ (probe : Int → Bool) (sched : Scheduler)
    (limit : Option Nat) (fuel : Nat) (c : Int) (st : ScanState) :
    scanLoop probe sched limit (fuel + 1) c st =
      if (processResults limit (sortedBatch probe sched c) st).2
      then scanLoop probe sched limit fuel (c - (scanConcurrency : Int))
        (processResults limit (sortedBatch probe sched c) st).1
      else (processResults limit (sortedBatch probe sched c) st).1 := by
  rw [scanLoop]
  rcases processResults limit (sortedBatch probe sched c) st with ⟨st', keep⟩
  cases keep
  · rfl
  · rfl

theorem scanLoop_limit_vs_none {probe : Int → Bool} {sched : Scheduler}
    (hs : validScheduler sched) (k : Nat) (hk : k ≠ 0) :
    ∀ (fuel : Nat) (c : Int) (st : ScanState), st.jobIds.length < k →
    ((scanLoop probe sched (some k) fuel c st).jobIds =
        (scanLoop probe sched none fuel c st).jobIds ∧
      (scanLoop probe sched none fuel c st).jobIds.length < k) ∨
    ((scanLoop probe sched (some k) fuel c st).jobIds =
        (scanLoop probe sched none fuel c st).jobIds.take k ∧
      (scanLoop probe sched (some k) fuel c st).jobIds.length = k) := by
  intro fuel
  induction fuel with
  | zero =>
    intro c st hlen
    exact Or.inl ⟨rfl, hlen⟩
  | succ fuel ih =>
    intro c st hlen
    rw [scanLoop_succ, scanLoop_succ]
    rcases processResults_limit_vs_none k hk (sortedBatch probe sched c) st hlen
      with ⟨heq, hlt⟩ | ⟨htake, hklen, hstop⟩ | ⟨heq, hklen, hkeep⟩
    · rw [heq]
      by_cases hkeep2 :
          (processResults none (sortedBatch probe sched c) st).2 = true
      · rw [if_pos hkeep2, if_pos hkeep2]
        exact ih _ _ hlt
      · rw [if_neg hkeep2, if_neg hkeep2]
        exact Or.inl ⟨rfl, hlt⟩
    · rw [hstop]
      simp only [Bool.false_eq_true, if_false]
      have hk_le : k ≤
          (processResults none (sortedBatch probe sched c) st).1.jobIds.length := by
        have hlt := congrArg List.length htake
        rw [List.length_take] at hlt
        omega
      by_cases hkeep2 :
          (processResults none (sortedBatch probe sched c) st).2 = true
      · rw [if_pos hkeep2]
        obtain ⟨ext, hext⟩ := scanLoop_jobIds probe sched none fuel
          (c - (scanConcurrency : Int))
          (processResults none (sortedBatch probe sched c) st).1
        refine Or.inr ⟨?_, hklen⟩
        rw [hext, take_append_le hk_le, htake]
      · rw [if_neg hkeep2]
        exact Or.inr ⟨htake, hklen⟩
    · rw [heq] at hklen hkeep
      rw [heq, if_pos hkeep, if_pos hkeep]
      have hlhs := @scanLoop_limitReached probe sched hs k hk fuel
        (c - (scanConcurrency : Int))
        (processResults none (sortedBatch probe sched c) st).1
        (le_of_eq hklen.symm)
      obtain ⟨ext, hext⟩ := scanLoop_jobIds probe sched none fuel
        (c - (scanConcurrency : Int))
        (processResults none (sortedBatch probe sched c) st).1
      refine Or.inr ⟨?_, by rw [hlhs]; exact hklen⟩
      rw [hlhs, hext, take_append_le (le_of_eq hklen.symm), ← hklen,
        List.take_length]

/-- Claim C3: for `1 ≤ k` not exceeding the number of ids the unlimited scan
would deliver, the limited scan returns exactly `k` ids, namely the first
`k` ids (most recent first) of the unlimited scan, discarding every valid
result beyond the limit. -/
theorem scan_limit_enforcement (probe : Int → Bool) (sched : Scheduler)
    (hs : validScheduler sched) (startId : Int) (fuel k : Nat) (hk : 1 ≤ k)
    (hcount : k ≤ (scanJobIdsParallel probe sched startId none fuel).length) :
    scanJobIdsParallel probe sched startId (some k) fuel =
      (scanJobIdsParallel probe sched startId none fuel).take k ∧
    (scanJobIdsParallel probe sched startId (some k) fuel).length = k := by
  have h := @scanLoop_limit_vs_none probe sched hs k (by omega) fuel startId
    ⟨[], 0⟩ (by show 0 < k; omega)
  unfold scanJobIdsParallel at hcount ⊢
  rcases h with ⟨_, hlt⟩ | ⟨htake, hklen⟩
  · omega
  · exact ⟨htake, hklen⟩

/-- Witness for C3: an always-valid oracle, limit 3. -/
theorem scan_limit_enforcement_witness :
    scanJobIdsParallel (fun _ => true) (fun _ l => l) 1000 (some 3) 1 =
      (scanJobIdsParallel (fun _ => true) (fun _ l => l) 1000 none 1).take 3 ∧
    (scanJobIdsParallel (fun _ => true) (fun _ l => l) 1000
        (some 3) 1).length = 3 :=
  scan_limit_enforcement _ _ (fun _ l => List.Perm.refl l) 1000 1 3 (by omega)
    (by decide)

/-! ## RecordParser (`scrapeJobDetails`, src/scraper.ts lines 177-260)

JS string operations on the `List Char` embedding. -/

def isWs (ch : Char) : Bool := ch.isWhitespace

/-- JS `String.prototype.trim`. -/
def trimStr (s : Str) : Str :=
  ((s.dropWhile isWs).reverse.dropWhile isWs).reverse

def splitNlAux : Str → Str → List Str
  | [], acc => [acc.reverse]
  | ch :: rest, acc =>
    if ch = '\n' then acc.reverse :: splitNlAux rest []
    else splitNlAux rest (ch :: acc)

/-- JS `fullText.split('\n')`. -/
def splitNl (s : Str) : List Str := splitNlAux s []

/-- JS `descLines.join('\n')`. -/
def joinNl : List Str → Str
  | [] => []
  | [p] => p
  | p :: q :: rest => p ++ '\n' :: joinNl (q :: rest)

/-- JS `s.replace(pat, repl)` for a non-empty plain-string pattern: replaces
the first occurrence only. -/
def replaceFirst (pat repl : Str) : Str → Str
  | [] => []
  | ch :: rest =>
    if pat.isPrefixOf (ch :: rest) then repl ++ (ch :: rest).drop pat.length
    else ch :: replaceFirst pat repl rest

def serverErrorMarker : Str := "Server Error".toList

def forbiddenMarker : Str := "403 - Forbidden".toList

def viewSimilarMarker : Str := "View Similar Jobs:".toList

def subscribeMarker : Str := "Subscribe to Value Membership".toList

/-- The `Job` record of src/types.ts. -/
structure Job where
  externalId : Str
  title : Str
  organization : Str
  location : Str
  deadline : Str
  sectors : List Str
  description : Str
  originalUrl : Str
deriving DecidableEq, Repr

/-- What the detail-page fetch delivers to `scrapeJobDetails`, selector by
selector; every field is fallible (`none` models a failed/absent read, each
`.catch` fallback is applied by the extractors below).  `sectorMatch` holds
the capture groups of the `Relevant Sectors` markup regex (`none` when
`page.content()` failed or the regex did not match). -/
structure FetchedDetail where
  h1 : Option Str
  h5 : Option Str
  locationP : Option Str
  deadlineP : Option Str
  sectorMatch : Option (Str × Option Str)
  bodyText : Option Str
deriving DecidableEq, Repr

def extractTitle (pg : FetchedDetail) : Str := pg.h1.getD "Unknown Title".toList

def extractOrganization (pg : FetchedDetail) : Str :=
  pg.h5.getD "Unknown Organization".toList

/-- The source's `locationText.replace('Location:', '').trim() || 'India'`. -/
def extractLocation (pg : FetchedDetail) : Str :=
  let loc := trimStr (replaceFirst "Location:".toList []
    (pg.locationP.getD "Location: India".toList))
  if loc = [] then "India".toList else loc

/-- The source's `deadlineText.replace('Apply by:', '').trim() || 'Unknown'`. -/
def extractDeadline (pg : FetchedDetail) : Str :=
  let d := trimStr (replaceFirst "Apply by:".toList []
    (pg.deadlineP.getD "Apply by: Unknown".toList))
  if d = [] then "Unknown".toList else d

/-- The two `sectors.push` guards: a truthy (non-empty) capture group that
does not contain `<`. -/
def extractSectors (pg : FetchedDetail) : List Str :=
  match pg.sectorMatch with
  | none => []
  | some (m1, m2) =>
    (if m1 ≠ [] ∧ strIncludes m1 "<".toList = false then [trimStr m1]
     else []) ++
    (match m2 with
     | some s =>
       if s ≠ [] ∧ strIncludes s "<".toList = false then [trimStr s] else []
     | none => [])

/-- A trailing-boilerplate marker line. -/
def markerLine (l : Str) : Bool :=
  strIncludes l viewSimilarMarker || strIncludes l subscribeMarker

/-- The `for (const line of lines)` scan filling `descLines`: a line equal to
the trimmed title (re)arms capture and is skipped; a marker line breaks the
scan; an armed, non-empty trimmed line is captured. -/
def descLoop (title : Str) : List Str → Bool → List Str
  | [], _ => []
  | line :: rest, inDescription =>
    let trimmed := trimStr line
    if trimmed = trimStr title then descLoop title rest true
    else if markerLine trimmed then []
    else if inDescription ∧ trimmed ≠ [] then
      trimmed :: descLoop title rest inDescription
    else descLoop title rest inDescription

/-- The source's `descLines.join('\n').trim()` over the scan of the lines. -/
def codeDescription (title : Str) (lines : List Str) : Str :=
  trimStr (joinNl (descLoop title lines false))

/-- The full description extraction of `scrapeJobDetails`: body text split
into lines and scanned; a failed body read (caught) yields `''`. -/
def extractDescription (pg : FetchedDetail) : Str :=
  match pg.bodyText with
  | none => []
  | some fullText => codeDescription (extractTitle pg) (splitNl fullText)

def jobUrl (jobId : Str) : Str :=
  "https://devnetjobsindia.org/JobDescription.aspx?Job_Id=".toList ++ jobId

/-- The result of `scrapeJobDetails(page, jobId)` after the fetch: the fields,
the soft-error check (`return null`), and the assembled record. -/
def scrapeJobDetails (pg : FetchedDetail) (jobId : Str) : Option Job :=
  if strIncludes (extractTitle pg) serverErrorMarker ||
      strIncludes (extractTitle pg) forbiddenMarker ||
      strIncludes (extractOrganization pg) serverErrorMarker ||
      strIncludes (extractDescription pg) forbiddenMarker then
    none
  else
    some {
      externalId := jobId
      title := trimStr (extractTitle pg)
      organization := trimStr (extractOrganization pg)
      location := trimStr (extractLocation pg)
      deadline := trimStr (extractDeadline pg)
      sectors := if extractSectors pg ≠ [] then extractSectors pg
                 else ["General".toList]
      description := trimStr (extractDescription pg)
      originalUrl := jobUrl jobId }

/-! ### Trim facts -/

theorem dropWhile_dropWhile {α : Type} (p : α → Bool) (l : List α) :
    (l.dropWhile p).dropWhile p = l.dropWhile p := by
  induction l with
  | nil => rfl
  | cons a t ih =>
    rw [List.dropWhile_cons]
    by_cases h : p a = true
    · rw [if_pos h]
      exact ih
    · rw [if_neg h, List.dropWhile_cons, if_neg h]

theorem dropWhile_eq_self_cons {α : Type} {p : α → Bool} {a : α} {l : List α}
    (h : (a :: l).dropWhile p = a :: l) : p a = false := by
  by_cases hp : p a = true
  · rw [List.dropWhile_cons, if_pos hp] at h
    have hlen := congrArg List.length h
    have hle : (l.dropWhile p).length ≤ l.length :=
      (List.dropWhile_suffix p).sublist.length_le
    rw [List.length_cons] at hlen
    omega
  · exact Bool.eq_false_iff.mpr hp

theorem dropWhile_cons_of_neg {α : Type} {p : α → Bool} {a : α} {l : List α}
    (h : p a = false) : (a :: l).dropWhile p = a :: l := by
  rw [List.dropWhile_cons, h]
  simp only [Bool.false_eq_true, if_false]

theorem dropWhile_eq_self_of_prefix {α : Type} {p : α → Bool} {l₁ l₂ : List α}
    (hpre : l₁ <+: l₂) (h : l₂.dropWhile p = l₂) : l₁.dropWhile p = l₁ := by
  cases l₁ with
  | nil => rfl
  | cons a t =>
    rcases hpre with ⟨ext, hext⟩
    subst hext
    rw [List.cons_append] at h
    exact dropWhile_cons_of_neg (dropWhile_eq_self_cons h)

theorem trimStr_eq_self_iff (s : Str) :
    trimStr s = s ↔
      s.dropWhile isWs = s ∧ s.reverse.dropWhile isWs = s.reverse := by
  constructor
  · intro h
    have hlenA : (s.dropWhile isWs).length ≤ s.length :=
      (List.dropWhile_suffix isWs).sublist.length_le
    have hlenB : ((s.dropWhile isWs).reverse.dropWhile isWs).length ≤
        (s.dropWhile isWs).length := by
      have hb := (List.dropWhile_suffix
        (l := (s.dropWhile isWs).reverse) isWs).sublist.length_le
      rw [List.length_reverse] at hb
      exact hb
    have hlen := congrArg List.length h
    rw [trimStr, List.length_reverse] at hlen
    have hA : s.dropWhile isWs = s :=
      (List.dropWhile_suffix isWs).sublist.eq_of_length (by omega)
    refine ⟨hA, ?_⟩
    rw [trimStr, hA] at h
    have hrev := congrArg List.reverse h
    rw [List.reverse_reverse] at hrev
    rw [hrev]
  · intro ⟨h1, h2⟩
    rw [trimStr, h1, h2, List.reverse_reverse]

theorem trimStr_idem (s : Str) : trimStr (trimStr s) = trimStr s := by
  apply (trimStr_eq_self_iff _).mpr
  constructor
  · have hsuf : (s.dropWhile isWs).reverse.dropWhile isWs <:+
        (s.dropWhile isWs).reverse := List.dropWhile_suffix isWs
    have hpre := List.reverse_prefix.mpr hsuf
    rw [List.reverse_reverse] at hpre
    exact dropWhile_eq_self_of_prefix hpre (dropWhile_dropWhile isWs s)
  · rw [trimStr, List.reverse_reverse]
    exact dropWhile_dropWhile isWs _

/-! ### The joined description needs no further trimming -/

theorem joinNl_ne_nil {pieces : List Str} (hne : pieces ≠ [])
    (hall : ∀ p ∈ pieces, p ≠ []) : joinNl pieces ≠ [] := by
  cases pieces with
  | nil => exact absurd rfl hne
  | cons p rest =>
    cases rest with
    | nil => exact hall p (List.mem_cons_self _ _)
    | cons q r =>
      show p ++ '\n' :: joinNl (q :: r) ≠ []
      cases p with
      | nil => exact fun h => List.noConfusion h
      | cons a t => exact fun h => List.noConfusion h

theorem dropWhile_joinNl {pieces : List Str}
    (hall : ∀ p ∈ pieces, p.dropWhile isWs = p ∧ p ≠ []) :
    (joinNl pieces).dropWhile isWs = joinNl pieces := by
  cases pieces with
  | nil => rfl
  | cons p rest =>
    obtain ⟨hp, hpne⟩ := hall p (List.mem_cons_self _ _)
    cases p with
    | nil => exact absurd rfl hpne
    | cons a t =>
      have ha : isWs a = false := dropWhile_eq_self_cons hp
      cases rest with
      | nil => exact hp
      | cons q r =>
        show ((a :: t) ++ '\n' :: joinNl (q :: r)).dropWhile isWs = _
        rw [List.cons_append]
        exact dropWhile_cons_of_neg ha

theorem dropWhile_reverse_joinNl {pieces : List Str}
    (hall : ∀ p ∈ pieces, p.reverse.dropWhile isWs = p.reverse ∧ p ≠ []) :
    (joinNl pieces).reverse.dropWhile isWs = (joinNl pieces).reverse := by
  induction pieces with
  | nil => rfl
  | cons p rest ih =>
    cases rest with
    | nil => exact (hall p (List.mem_cons_self _ _)).1
    | cons q r =>
      have hJ := ih (fun x hx => hall x (List.mem_cons_of_mem _ hx))
      have hJne : joinNl (q :: r) ≠ [] :=
        joinNl_ne_nil (fun h => List.noConfusion h)
          (fun x hx => (hall x (List.mem_cons_of_mem _ hx)).2)
      show (p ++ '\n' :: joinNl (q :: r)).reverse.dropWhile isWs =
        (p ++ '\n' :: joinNl (q :: r)).reverse
      rw [List.reverse_append, List.reverse_cons]
      rcases hrev : (joinNl (q :: r)).reverse with _ | ⟨a, t⟩
      · exact absurd (by
          have := congrArg List.reverse hrev
          rw [List.reverse_reverse] at this
          exact this) hJne
      · rw [hrev] at hJ
        have ha : isWs a = false := dropWhile_eq_self_cons hJ
        rw [List.cons_append, List.cons_append]
        exact dropWhile_cons_of_neg ha

theorem trim_joinNl {pieces : List Str}
    (hall : ∀ p ∈ pieces, trimStr p = p ∧ p ≠ []) :
    trimStr (joinNl pieces) = joinNl pieces := by
  apply (trimStr_eq_self_iff _).mpr
  constructor
  · exact dropWhile_joinNl (fun p hp =>
      ⟨((trimStr_eq_self_iff p).mp (hall p hp).1).1, (hall p hp).2⟩)
  · exact dropWhile_reverse_joinNl (fun p hp =>
      ⟨((trimStr_eq_self_iff p).mp (hall p hp).1).2, (hall p hp).2⟩)

/-! ### Step lemmas for the description scan -/

theorem descLoop_title (title line : Str) (rest : List Str) (flag : Bool)
    (h : trimStr line = trimStr title) :
    descLoop title (line :: rest) flag = descLoop title rest true := by
  rw [descLoop, if_pos h]

theorem descLoop_marker (title line : Str) (rest : List Str) (flag : Bool)
    (h1 : trimStr line ≠ trimStr title)
    (h2 : markerLine (trimStr line) = true) :
    descLoop title (line :: rest) flag = [] := by
  rw [descLoop, if_neg h1, if_pos h2]

theorem descLoop_capture (title line : Str) (rest : List Str)
    (h1 : trimStr line ≠ trimStr title)
    (h2 : markerLine (trimStr line) = false) (h3 : trimStr line ≠ []) :
    descLoop title (line :: rest) true =
      trimStr line :: descLoop title rest true := by
  rw [descLoop, if_neg h1, if_neg (Bool.eq_false_iff.mp h2),
    if_pos ⟨rfl, h3⟩]

theorem descLoop_skip_empty (title line : Str) (rest : List Str) (flag : Bool)
    (h1 : trimStr line ≠ trimStr title)
    (h2 : markerLine (trimStr line) = false) (h3 : trimStr line = []) :
    descLoop title (line :: rest) flag = descLoop title rest flag := by
  rw [descLoop, if_neg h1, if_neg (Bool.eq_false_iff.mp h2),
    if_neg (fun hc => hc.2 h3)]

theorem descLoop_notArmed (title line : Str) (rest : List Str)
    (h1 : trimStr line ≠ trimStr title)
    (h2 : markerLine (trimStr line) = false) :
    descLoop title (line :: rest) false = descLoop title rest false := by
  rw [descLoop, if_neg h1, if_neg (Bool.eq_false_iff.mp h2),
    if_neg (fun hc => absurd hc.1 (by decide))]

theorem descLoop_elems (title : Str) :
    ∀ (lines : List Str) (flag : Bool) (x : Str),
    x ∈ descLoop title lines flag → trimStr x = x ∧ x ≠ []
  | [], _, x => fun hx => absurd hx (List.not_mem_nil x)
  | line :: rest, flag, x => by
    intro hx
    by_cases h1 : trimStr line = trimStr title
    · rw [descLoop_title _ _ _ _ h1] at hx
      exact descLoop_elems title rest true x hx
    · by_cases h2 : markerLine (trimStr line) = true
      · rw [descLoop_marker _ _ _ _ h1 h2] at hx
        exact absurd hx (List.not_mem_nil x)
      · have h2f := Bool.eq_false_iff.mpr h2
        by_cases h3 : trimStr line = []
        · rw [descLoop_skip_empty _ _ _ _ h1 h2f h3] at hx
          exact descLoop_elems title rest flag x hx
        · cases flag
          · rw [descLoop_notArmed _ _ _ h1 h2f] at hx
            exact descLoop_elems title rest false x hx
          · rw [descLoop_capture _ _ _ h1 h2f h3] at hx
            rcases List.mem_cons.mp hx with rfl | hmem
            · exact ⟨trimStr_idem line, h3⟩
            · exact descLoop_elems title rest true x hmem

theorem codeDescription_eq_joinNl (title : Str) (lines : List Str) :
    codeDescription title lines = joinNl (descLoop title lines false) :=
  trim_joinNl (fun p hp => descLoop_elems title lines false p hp)

/-! ### The description algorithm as combinators (claim C7) -/

/-- The window-extraction algorithm as the claim words it: begin capturing
after the first line that (trimmed) equals the trimmed title, stop at the
first marker line, keep the trimmed non-empty captured lines, join with
newlines. -/
def specDescriptionLiteral (title : Str) (lines : List Str) : Str :=
  joinNl
    (((((lines.map trimStr).dropWhile
          (fun l => decide (l ≠ trimStr title))).drop 1).takeWhile
        (fun l => !(markerLine l))).filter
      (fun l => decide (l ≠ [])))

/-- The window-extraction algorithm amended to the code's line discipline:
the scan halts at the first marker line that is not a title line (even
before capture begins), every line equal to the trimmed title is skipped
(it only re-arms capture), and the captured lines are the trimmed non-empty
lines after the first title line within that window. -/
def specDescriptionAmended (title : Str) (lines : List Str) : Str :=
  joinNl
    (((((lines.map trimStr).takeWhile
            (fun l => decide (l = trimStr title) || !(markerLine l))).dropWhile
          (fun l => decide (l ≠ trimStr title))).drop 1).filter
      (fun l => decide (l ≠ trimStr title) && decide (l ≠ [])))

theorem descLoop_spec (title : Str) :
    ∀ lines : List Str,
    (descLoop title lines true =
      ((lines.map trimStr).takeWhile
          (fun l => decide (l = trimStr title) || !(markerLine l))).filter
        (fun l => decide (l ≠ trimStr title) && decide (l ≠ []))) ∧
    (descLoop title lines false =
      ((((lines.map trimStr).takeWhile
            (fun l => decide (l = trimStr title) || !(markerLine l))).dropWhile
          (fun l => decide (l ≠ trimStr title))).drop 1).filter
        (fun l => decide (l ≠ trimStr title) && decide (l ≠ [])))
  | [] => ⟨rfl, rfl⟩
  | line :: rest => by
    obtain ⟨ihT, ihF⟩ := descLoop_spec title rest
    constructor
    · by_cases h1 : trimStr line = trimStr title
      · rw [descLoop_title _ _ _ _ h1, ihT]
        rw [List.map_cons, List.takeWhile_cons, decide_eq_true h1,
          Bool.true_or, if_pos rfl]
        rw [List.filter_cons, decide_eq_false (fun hne => hne h1),
          Bool.false_and, if_neg (by simp)]
      · by_cases h2 : markerLine (trimStr line) = true
        · rw [descLoop_marker _ _ _ _ h1 h2]
          rw [List.map_cons, List.takeWhile_cons, decide_eq_false h1, h2,
            Bool.not_true, Bool.or_self, if_neg (by simp)]
          rfl
        · have h2f := Bool.eq_false_iff.mpr h2
          by_cases h3 : trimStr line = []
          · rw [descLoop_skip_empty _ _ _ _ h1 h2f h3, ihT]
            rw [List.map_cons, List.takeWhile_cons, decide_eq_false h1, h2f,
              Bool.not_false, Bool.or_true, if_pos rfl]
            rw [List.filter_cons,
              decide_eq_false (fun hne : trimStr line ≠ [] => hne h3),
              Bool.and_false, if_neg (by simp)]
          · rw [descLoop_capture _ _ _ h1 h2f h3, ihT]
            rw [List.map_cons, List.takeWhile_cons, decide_eq_false h1, h2f,
              Bool.not_false, Bool.or_true, if_pos rfl]
            rw [List.filter_cons, decide_eq_true h1, decide_eq_true h3,
              Bool.and_self, if_pos rfl]
    · by_cases h1 : trimStr line = trimStr title
      · rw [descLoop_title _ _ _ _ h1, ihT]
        rw [List.map_cons, List.takeWhile_cons, decide_eq_true h1,
          Bool.true_or, if_pos rfl]
        rw [List.dropWhile_cons, decide_eq_false (fun hne => hne h1)]
        simp only [Bool.false_eq_true, if_false]
        rw [List.drop_succ_cons, List.drop_zero]
      · by_cases h2 : markerLine (trimStr line) = true
        · rw [descLoop_marker _ _ _ _ h1 h2]
          rw [List.map_cons, List.takeWhile_cons, decide_eq_false h1, h2,
            Bool.not_true, Bool.or_self, if_neg (by simp)]
          rfl
        · have h2f := Bool.eq_false_iff.mpr h2
          rw [descLoop_notArmed _ _ _ h1 h2f, ihF]
          rw [List.map_cons, List.takeWhile_cons, decide_eq_false h1, h2f,
            Bool.not_false, Bool.or_true, if_pos rfl]
          rw [List.dropWhile_cons, decide_eq_true h1, if_pos rfl]

/-- Claim C7 (amended): the description field is computed by the line-window
algorithm — lines trimmed, capture begins after the first line equal to the
trimmed title, the scan stops at the first marker line (tested even before
capture begins, with title lines exempt), lines equal to the title are
always skipped, and the captured trimmed non-empty lines are joined with
newlines. -/
theorem description_line_window_algorithm (title : Str) (lines : List Str) :
    codeDescription title lines = specDescriptionAmended title lines := by
  rw [codeDescription_eq_joinNl, specDescriptionAmended]
  exact congrArg joinNl (descLoop_spec title lines).2

/-- Counterexample to C7 as stated: when the title line recurs inside the
body, the code skips the recurrence while the claim's window algorithm
captures it. -/
theorem description_line_window_counterexample :
    codeDescription "T".toList
        ["T".toList, "a".toList, "T".toList, "b".toList] ≠
      specDescriptionLiteral "T".toList
        ["T".toList, "a".toList, "T".toList, "b".toList] := by
  decide

/-! ## HarvestPipeline (`scrapeJobs`, src/scraper.ts lines 29-47) -/

/-- The `CONCURRENCY_LIMIT` constant of src/scraper.ts. -/
def CONCURRENCY_LIMIT : Nat := 10

/-- One item of a harvest batch: an isolated page context, the detail fetch
and extraction; any raised fault is caught at the item boundary
(`catch` → `return null`). -/
def harvestItem (fetch : Str → Except Unit FetchedDetail) (jobId : Str) :
    Option Job :=
  match fetch jobId with
  | Except.error _ => none
  | Except.ok pg => scrapeJobDetails pg jobId

/-- The chunked harvest loop of `scrapeJobs`: `CONCURRENCY_LIMIT`-sized
chunks, each chunk's results in the identifier list's order (`Promise.all`
preserves positions), `null`s filtered out, survivors appended in order. -/
def harvestJobs (fetch : Str → Except Unit FetchedDetail) :
    List Str → List Job
  | [] => []
  | jobId :: rest =>
    (((jobId :: rest).take CONCURRENCY_LIMIT).map
        (harvestItem fetch)).reduceOption ++
      harvestJobs fetch (rest.drop (CONCURRENCY_LIMIT - 1))
termination_by l => l.length
decreasing_by
  simp only [List.length_cons, List.length_drop]
  omega

/-- The `scrapeJobs` output: the snapshot record (`scrapedAt` is the wall-clock
timestamp parameter). -/
structure ScraperOutput where
  scrapedAt : Str
  totalJobs : Nat
  jobs : List Job
deriving DecidableEq, Repr

/-- Chunking is invisible in the result: the harvest is the order-preserving
filter-map of the per-item work over the identifier list. -/
theorem harvestJobs_eq_filterMap (fetch : Str → Except Unit FetchedDetail) :
    ∀ ids : List Str, harvestJobs fetch ids = ids.filterMap (harvestItem fetch)
  | [] => by rw [harvestJobs]; rfl
  | jobId :: rest => by
    rw [harvestJobs]
    have hsplit : (jobId :: rest).filterMap (harvestItem fetch) =
        ((jobId :: rest).take CONCURRENCY_LIMIT).filterMap
            (harvestItem fetch) ++
          ((jobId :: rest).drop CONCURRENCY_LIMIT).filterMap
            (harvestItem fetch) := by
      rw [← List.filterMap_append, List.take_append_drop]
    rw [hsplit]
    have hdrop : (jobId :: rest).drop CONCURRENCY_LIMIT =
        rest.drop (CONCURRENCY_LIMIT - 1) := rfl
    rw [hdrop, harvestJobs_eq_filterMap fetch (rest.drop (CONCURRENCY_LIMIT - 1))]
    have hred : ∀ l : List Str,
        (l.map (harvestItem fetch)).reduceOption =
          l.filterMap (harvestItem fetch) := by
      intro l
      rw [List.reduceOption, List.filterMap_map]
      rfl
    rw [hred]
termination_by ids => ids.length
decreasing_by
  simp only [List.length_cons, List.length_drop]
  omega

theorem mem_harvestJobs {fetch : Str → Except Unit FetchedDetail}
    {ids : List Str} {job : Job} :
    job ∈ harvestJobs fetch ids ↔
      ∃ id ∈ ids, harvestItem fetch id = some job := by
  rw [harvestJobs_eq_filterMap, List.mem_filterMap]

theorem scrapeJobDetails_externalId {pg : FetchedDetail} {jobId : Str}
    {job : Job} (h : scrapeJobDetails pg jobId = some job) :
    job.externalId = jobId := by
  rw [scrapeJobDetails] at h
  split at h
  · exact absurd h (by simp)
  · rw [Option.some.injEq] at h
    rw [← h]

theorem filterMap_eq_map_of_forall_some {α β : Type} {f : α → Option β}
    {g : α → β} : ∀ {l : List α}, (∀ x ∈ l, f x = some (g x)) →
    l.filterMap f = l.map g
  | [], _ => rfl
  | a :: t, h => by
    rw [List.filterMap_cons, h a (List.mem_cons_self _ _), List.map_cons,
      filterMap_eq_map_of_forall_some
        (fun x hx => h x (List.mem_cons_of_mem _ hx))]

/-- Claim C6: in a harvest batch of `C` identifiers where exactly one item's
fetch/extract raises, the fault is confined to that item: the other `C - 1`
records are still produced, in the identifier list's order, the faulting
identifier yields no output record, and the remaining pipeline continues. -/
theorem harvest_single_fault_isolated (fetch : Str → Except Unit FetchedDetail)
    (pre post rest : List Str) (bad : Str) (g : Str → Job)
    (_hbatch : pre.length + post.length = CONCURRENCY_LIMIT - 1)
    (hbad : fetch bad = Except.error ())
    (hok : ∀ id ∈ pre ++ post, ∃ pg, fetch id = Except.ok pg ∧
      scrapeJobDetails pg id = some (g id))
    (hgid : ∀ id ∈ pre ++ post, (g id).externalId = id)
    (hbadmem : bad ∉ pre ++ post) :
    harvestJobs fetch (pre ++ bad :: post ++ rest) =
      pre.map g ++ post.map g ++ harvestJobs fetch rest ∧
    bad ∉ (pre.map g ++ post.map g).map Job.externalId := by
  have hitem : ∀ id ∈ pre ++ post, harvestItem fetch id = some (g id) := by
    intro id hid
    obtain ⟨pg, hfetch, hscrape⟩ := hok id hid
    rw [harvestItem, hfetch]
    exact hscrape
  constructor
  · rw [harvestJobs_eq_filterMap, harvestJobs_eq_filterMap]
    rw [List.filterMap_append, List.filterMap_append,
      List.filterMap_cons_none (by rw [harvestItem, hbad])]
    rw [filterMap_eq_map_of_forall_some
      (fun x hx => hitem x (List.mem_append_left _ hx))]
    rw [filterMap_eq_map_of_forall_some
      (fun x hx => hitem x (List.mem_append_right _ hx))]
  · intro hmem
    rw [List.map_append] at hmem
    rcases List.mem_append.mp hmem with h | h <;>
      rw [List.mem_map] at h
    · obtain ⟨j, hj, hej⟩ := h
      rw [List.mem_map] at hj
      obtain ⟨id, hid, rfl⟩ := hj
      have := hgid id (List.mem_append_left _ hid)
      rw [this] at hej
      exact hbadmem (hej ▸ List.mem_append_left _ hid)
    · obtain ⟨j, hj, hej⟩ := h
      rw [List.mem_map] at hj
      obtain ⟨id, hid, rfl⟩ := hj
      have := hgid id (List.mem_append_right _ hid)
      rw [this] at hej
      exact hbadmem (hej ▸ List.mem_append_right _ hid)

/-! ### Soft-error pages (claim C4) -/

/-- The soft-error test exactly as `scrapeJobDetails` performs it. -/
def softErrorCond (pg : FetchedDetail) : Bool :=
  strIncludes (extractTitle pg) serverErrorMarker ||
  strIncludes (extractTitle pg) forbiddenMarker ||
  strIncludes (extractOrganization pg) serverErrorMarker ||
  strIncludes (extractDescription pg) forbiddenMarker

/-- The soft-error condition as the claim words it: either marker in any of
title, organization or description. -/
def specSoftErrorCond (pg : FetchedDetail) : Bool :=
  strIncludes (extractTitle pg) serverErrorMarker ||
  strIncludes (extractTitle pg) forbiddenMarker ||
  strIncludes (extractOrganization pg) serverErrorMarker ||
  strIncludes (extractOrganization pg) forbiddenMarker ||
  strIncludes (extractDescription pg) serverErrorMarker ||
  strIncludes (extractDescription pg) forbiddenMarker

/-- A structurally valid page whose description (only) contains the server
error marker. -/
def pgServerErrorDesc : FetchedDetail where
  h1 := some "Programme Officer".toList
  h5 := some "Some NGO".toList
  locationP := none
  deadlineP := none
  sectorMatch := none
  bodyText := some "Programme Officer\nServer Error while rendering\nApply now".toList

/-- Counterexample to C4 as stated: a page whose description contains
'Server Error' meets the claim's condition yet is not excluded — the code
only tests the description for '403 - Forbidden'. -/
theorem scrape_soft_error_counterexample :
    specSoftErrorCond pgServerErrorDesc = true ∧
      scrapeJobDetails pgServerErrorDesc "500".toList ≠ none := by
  constructor
  · decide
  · decide

/-- Claim C4 (amended): extraction returns `null` exactly when the title
contains 'Server Error' or '403 - Forbidden', the organization contains
'Server Error', or the description contains '403 - Forbidden'; consequently
no harvested record ever comes from a page meeting that condition — the id
is excluded from the output (and hence from `totalJobs`). -/
theorem scrape_soft_error_pages_skipped :
    (∀ (pg : FetchedDetail) (jobId : Str),
      scrapeJobDetails pg jobId = none ↔ softErrorCond pg = true) ∧
    (∀ (fetch : Str → Except Unit FetchedDetail) (ids : List Str) (job : Job),
      job ∈ harvestJobs fetch ids →
      ∀ pg, fetch job.externalId = Except.ok pg → softErrorCond pg = false) := by
  have hiff : ∀ (pg : FetchedDetail) (jobId : Str),
      scrapeJobDetails pg jobId = none ↔ softErrorCond pg = true := by
    intro pg jobId
    rw [scrapeJobDetails, softErrorCond]
    by_cases hc : (strIncludes (extractTitle pg) serverErrorMarker ||
        strIncludes (extractTitle pg) forbiddenMarker ||
        strIncludes (extractOrganization pg) serverErrorMarker ||
        strIncludes (extractDescription pg) forbiddenMarker) = true
    · rw [if_pos hc]
      exact ⟨fun _ => hc, fun _ => rfl⟩
    · rw [if_neg hc]
      constructor
      · intro h
        exact absurd h (by simp)
      · intro h
        exact absurd h hc
  refine ⟨hiff, ?_⟩
  intro fetch ids job hmem pg hfetch
  rcases mem_harvestJobs.mp hmem with ⟨id, _, hitem⟩
  rw [harvestItem] at hitem
  rcases hf : fetch id with e | pg'
  · rw [hf] at hitem
    exact absurd hitem (by simp)
  · rw [hf] at hitem
    have hitem' : scrapeJobDetails pg' id = some job := hitem
    have hid_eq : job.externalId = id := scrapeJobDetails_externalId hitem'
    rw [hid_eq] at hfetch
    have hpg : pg' = pg := Except.ok.inj (hf.symm.trans hfetch)
    subst hpg
    by_cases hc : softErrorCond pg' = true
    · rw [(hiff pg' id).mpr hc] at hitem'
      exact absurd hitem' (by simp)
    · exact Bool.eq_false_iff.mpr hc

/-- A page whose title contains '403 - Forbidden' (Scenario C). -/
def pgForbiddenTitle : FetchedDetail where
  h1 := some "403 - Forbidden: Access is denied.".toList
  h5 := none
  locationP := none
  deadlineP := none
  sectorMatch := none
  bodyText := none

/-- Witness for C4: the id "500" with a '403 - Forbidden' title is excluded. -/
theorem scrape_soft_error_pages_skipped_witness :
    scrapeJobDetails pgForbiddenTitle "500".toList = none :=
  (scrape_soft_error_pages_skipped.1 pgForbiddenTitle "500".toList).mpr
    (by decide)

/-- A minimal valid detail page for the harvest witness. -/
def pgOk : FetchedDetail where
  h1 := some "T".toList
  h5 := some "O".toList
  locationP := none
  deadlineP := none
  sectorMatch := none
  bodyText := none

/-- The record `scrapeJobDetails` extracts from `pgOk` for a given id. -/
def gW (id : Str) : Job where
  externalId := id
  title := "T".toList
  organization := "O".toList
  location := "India".toList
  deadline := "Unknown".toList
  sectors := ["General".toList]
  description := []
  originalUrl := jobUrl id

def preW : List Str :=
  ["1".toList, "2".toList, "3".toList, "4".toList, "5".toList,
   "6".toList, "7".toList, "8".toList, "9".toList]

def fetchW : Str → Except Unit FetchedDetail :=
  fun id => if id = "X".toList then Except.error () else Except.ok pgOk

/-- Witness for C6: a 10-item batch whose 10th item raises. -/
theorem harvest_single_fault_isolated_witness :
    harvestJobs fetchW (preW ++ "X".toList :: [] ++ []) =
      preW.map gW ++ [].map gW ++ harvestJobs fetchW [] ∧
    "X".toList ∉ (preW.map gW ++ ([] : List Str).map gW).map Job.externalId := by
  refine harvest_single_fault_isolated fetchW preW [] [] "X".toList gW
    (by decide) rfl ?_ ?_ (by decide)
  · intro id hid
    refine ⟨pgOk, ?_, rfl⟩
    fin_cases hid <;> rfl
  · intro id _
    rfl

/-! ## Bootstrap discovery (`findMostRecentJobId`, src/scraper.ts
lines 59-102) -/

/-- The value of `parseInt(match[1], 10)` on a digit run. -/
def digitsVal (ds : Str) : Nat :=
  ds.foldl (fun acc ch => acc * 10 + (ch.toNat - '0'.toNat)) 0

/-- The regex match `url.match(/Job_Id=(\d+)/)`: the digit run after the first occurrence of
`Job_Id=` that is followed by at least one digit. -/
def extractJobId : Str → Option Nat
  | [] => none
  | ch :: rest =>
    if "Job_Id=".toList.isPrefixOf (ch :: rest) then
      let ds := ((ch :: rest).drop 7).takeWhile Char.isDigit
      if ds ≠ [] then some (digitsVal ds) else extractJobId rest
    else extractJobId rest

/-- The page capability as `findMostRecentJobId` consumes it: the pre-loop
navigation steps, and the attempt-indexed steps of the retry loop
(`waitForTimeout` never rejects, so it is not modelled). -/
structure BootstrapPage where
  gotoSearch : Except Unit Unit
  clickSearch : Except Unit Unit
  waitSearch : Except Unit Unit
  linkCount : Nat → Except Unit Nat
  linkClick : Nat → Except Unit Unit
  waitLoad : Nat → Except Unit Unit
  url : Nat → Str
  goBack : Nat → Except Unit Unit

/-- One iteration of the `for (attempt ...)` loop: every step runs inside
the `try`, so a raised fault only ends the attempt (`none`); the attempt
returns an id only when the click navigated to a URL with a parseable
`Job_Id` (otherwise it goes back — whose own fault is also caught — and the
loop continues). -/
def runAttempt (pg : BootstrapPage) (n : Nat) : Option Nat :=
  match pg.linkCount n with
  | Except.error _ => none
  | Except.ok 0 => none
  | Except.ok (_ + 1) =>
    match pg.linkClick n with
    | Except.error _ => none
    | Except.ok _ =>
      match pg.waitLoad n with
      | Except.error _ => none
      | Except.ok _ =>
        match extractJobId (pg.url n) with
        | some id => some id
        | none =>
          match pg.goBack n with
          | _ => none

/-- The bootstrap `findMostRecentJobId(page)`: the pre-loop navigation runs outside any
`try` (its faults propagate to the caller), then up to 3 attempts, then the
hardcoded fallback id 285461. -/
def findMostRecentJobId (pg : BootstrapPage) : Except Unit Nat :=
  match pg.gotoSearch with
  | Except.error e => Except.error e
  | Except.ok _ =>
    match pg.clickSearch with
    | Except.error e => Except.error e
    | Except.ok _ =>
      match pg.waitSearch with
      | Except.error e => Except.error e
      | Except.ok _ =>
        match runAttempt pg 0 with
        | some id => Except.ok id
        | none =>
          match runAttempt pg 1 with
          | some id => Except.ok id
          | none =>
            match runAttempt pg 2 with
            | some id => Except.ok id
            | none => Except.ok 285461

/-- A page capability whose initial search-page navigation fails. -/
def pgGotoFails : BootstrapPage where
  gotoSearch := Except.error ()
  clickSearch := Except.ok ()
  waitSearch := Except.ok ()
  linkCount := fun _ => Except.ok 0
  linkClick := fun _ => Except.ok ()
  waitLoad := fun _ => Except.ok ()
  url := fun _ => []
  goBack := fun _ => Except.ok ()

/-- Counterexample to C5 as stated: with the initial search-page navigation
failing, no attempt yields an identifier, yet `findMostRecentJobId`
propagates the error instead of returning the fallback — the pre-loop
navigation is outside every `try`. -/
theorem bootstrap_fallback_counterexample :
    ¬ (∀ pg : BootstrapPage, (∀ n, n < 3 → runAttempt pg n = none) →
      findMostRecentJobId pg = Except.ok 285461) := by
  intro h
  have h0 : (Except.error () : Except Unit Nat) = Except.ok 285461 :=
    h pgGotoFails (fun n _ => rfl)
  exact Except.noConfusion h0

/-- Claim C5 (amended): once the pre-loop navigation (search-page load,
search click, settle wait) succeeds, discovery never propagates an error:
whenever all 3 retry attempts fail to yield a parseable identifier, it
returns the statically configured fallback identifier 285461. -/
theorem bootstrap_fallback_on_attempt_failures (pg : BootstrapPage)
    (hgoto : pg.gotoSearch = Except.ok ())
    (hclick : pg.clickSearch = Except.ok ())
    (hwait : pg.waitSearch = Except.ok ())
    (hattempts : ∀ n, n < 3 → runAttempt pg n = none) :
    findMostRecentJobId pg = Except.ok 285461 := by
  rw [findMostRecentJobId, hgoto, hclick, hwait, hattempts 0 (by omega),
    hattempts 1 (by omega), hattempts 2 (by omega)]

/-- A page capability that never finds a job link. -/
def pgNoLinks : BootstrapPage where
  gotoSearch := Except.ok ()
  clickSearch := Except.ok ()
  waitSearch := Except.ok ()
  linkCount := fun _ => Except.ok 0
  linkClick := fun _ => Except.ok ()
  waitLoad := fun _ => Except.ok ()
  url := fun _ => []
  goBack := fun _ => Except.ok ()

/-- Witness for C5 (amended). -/
theorem bootstrap_fallback_on_attempt_failures_witness :
    findMostRecentJobId pgNoLinks = Except.ok 285461 :=
  bootstrap_fallback_on_attempt_failures pgNoLinks rfl rfl rfl
    (fun _ _ => rfl)

/-! ## ImportCoordinator (`importJobs`, src/import-to-neon.ts lines 56-128) -/

/-- A stored row of the `jobs` table. -/
structure Row where
  externalId : Str
  title : Str
  organization : Str
  location : Str
  deadline : Str
  sectors : List Str
  description : Str
  originalUrl : Str
  createdAt : Nat
  updatedAt : Nat
deriving DecidableEq, Repr

def findRow (db : List Row) (eid : Str) : Option Row :=
  db.find? (fun r => r.externalId == eid)

/-- The `DO UPDATE SET` assignment list: overwrite the mutable fields and
bump `updated_at`; key and `created_at` are untouched. -/
def updateRow (r : Row) (j : Job) (now : Nat) : Row :=
  { r with
    title := j.title
    organization := j.organization
    location := j.location
    deadline := j.deadline
    sectors := j.sectors
    description := j.description
    originalUrl := j.originalUrl
    updatedAt := now }

def newRow (j : Job) (now : Nat) : Row where
  externalId := j.externalId
  title := j.title
  organization := j.organization
  location := j.location
  deadline := j.deadline
  sectors := j.sectors
  description := j.description
  originalUrl := j.originalUrl
  createdAt := now
  updatedAt := now

/-- The semantics of the `INSERT ... ON CONFLICT (external_id) DO UPDATE ...
RETURNING (xmax = 0) AS inserted` statement of `importJobs` against the
external relational store (spec §6, `upsert(record) -> {wasInsert}`):
insert when the key is absent (`wasInsert` true), else overwrite the
conflicting row's mutable fields (`wasInsert` false). -/
def upsert (db : List Row) (j : Job) (now : Nat) : List Row × Bool :=
  match findRow db j.externalId with
  | some _ =>
    (db.map (fun r => if r.externalId == j.externalId then updateRow r j now
      else r), false)
  | none => (db ++ [newRow j now], true)

/-- Claim C8: importing two records that share an externalId into a store
not holding that key yields `wasInsert = true` then `wasInsert = false`, and
the stored row afterwards carries the second record's field values with the
update timestamp bumped (and the original creation timestamp). -/
theorem upsert_idempotent_overwrite (db : List Row) (j1 j2 : Job)
    (n1 n2 : Nat) (hfresh : findRow db j1.externalId = none)
    (heid : j2.externalId = j1.externalId) :
    (upsert db j1 n1).2 = true ∧
    (upsert (upsert db j1 n1).1 j2 n2).2 = false ∧
    findRow (upsert (upsert db j1 n1).1 j2 n2).1 j2.externalId =
      some { externalId := j1.externalId, title := j2.title,
             organization := j2.organization, location := j2.location,
             deadline := j2.deadline, sectors := j2.sectors,
             description := j2.description, originalUrl := j2.originalUrl,
             createdAt := n1, updatedAt := n2 } := by
  have hfresh' : db.find? (fun r => r.externalId == j1.externalId) = none :=
    hfresh
  have hnokey : ∀ r ∈ db, (r.externalId == j1.externalId) = false :=
    fun r hr => Bool.eq_false_iff.mpr (List.find?_eq_none.mp hfresh' r hr)
  have h1 : upsert db j1 n1 = (db ++ [newRow j1 n1], true) := by
    rw [upsert, hfresh]
  have hkey : ((newRow j1 n1).externalId == j1.externalId) = true := by
    show (j1.externalId == j1.externalId) = true
    exact beq_self_eq_true j1.externalId
  have hfind1 : findRow (db ++ [newRow j1 n1]) j2.externalId =
      some (newRow j1 n1) := by
    rw [heid, findRow, List.find?_append, hfresh', Option.none_or]
    exact List.find?_cons_of_pos _ hkey
  have h2 : upsert (db ++ [newRow j1 n1]) j2 n2 =
      ((db ++ [newRow j1 n1]).map
        (fun r => if r.externalId == j2.externalId then updateRow r j2 n2
          else r), false) := by
    rw [upsert]
    rw [show findRow (db ++ [newRow j1 n1]) j2.externalId =
      some (newRow j1 n1) from hfind1]
  refine ⟨by rw [h1], by rw [h1, h2], ?_⟩
  rw [h1, h2]
  have hmap : (db ++ [newRow j1 n1]).map
      (fun r => if r.externalId == j2.externalId then updateRow r j2 n2
        else r) = db ++ [updateRow (newRow j1 n1) j2 n2] := by
    rw [List.map_append]
    have hdb : db.map (fun r => if r.externalId == j2.externalId then
        updateRow r j2 n2 else r) = db := by
      have hcongr := List.map_congr_left
        (l := db)
        (f := fun r => if r.externalId == j2.externalId then
          updateRow r j2 n2 else r)
        (g := fun r => r)
        (fun r hr => by
          show (if (r.externalId == j2.externalId) = true then
            updateRow r j2 n2 else r) = r
          rw [heid, if_neg (by
            rw [hnokey r hr]
            exact Bool.false_ne_true)])
      rw [hcongr, List.map_id']
    rw [hdb, List.map_cons, List.map_nil, heid, if_pos hkey]
  rw [hmap, heid, findRow, List.find?_append, hfresh', Option.none_or]
  have hkey2 : ((updateRow (newRow j1 n1) j2 n2).externalId ==
      j1.externalId) = true := hkey
  rw [show List.find? (fun r => r.externalId == j1.externalId)
      [updateRow (newRow j1 n1) j2 n2] =
      some (updateRow (newRow j1 n1) j2 n2) from
    List.find?_cons_of_pos _ hkey2]
  rfl

/-- Two imports of the same listing, second with changed fields. -/
def jW1 : Job where
  externalId := "100".toList
  title := "Old Title".toList
  organization := "Org".toList
  location := "Delhi".toList
  deadline := "01 Jan".toList
  sectors := ["Health".toList]
  description := "old".toList
  originalUrl := "u".toList

def jW2 : Job :=
  { jW1 with title := "New Title".toList, description := "new".toList }

/-- Witness for C8. -/
theorem upsert_idempotent_overwrite_witness :
    (upsert [] jW1 5).2 = true ∧
    (upsert (upsert [] jW1 5).1 jW2 9).2 = false ∧
    findRow (upsert (upsert [] jW1 5).1 jW2 9).1 jW2.externalId =
      some { externalId := jW1.externalId, title := jW2.title,
             organization := jW2.organization, location := jW2.location,
             deadline := jW2.deadline, sectors := jW2.sectors,
             description := jW2.description, originalUrl := jW2.originalUrl,
             createdAt := 5, updatedAt := 9 } :=
  upsert_idempotent_overwrite [] jW1 jW2 5 9 rfl rfl

/-! ### Import counters (claim C10) -/

structure ImportState where
  db : List Row
  inserted : Nat
  updated : Nat
  errors : Nat
deriving Repr

/-- The `for (const job of data.jobs)` loop of `importJobs`: per record the
store call either raises (the `fail` oracle decides, caught and counted as
an error) or returns `wasInsert`, bumping the matching counter; `now` is
the store's CURRENT_TIMESTAMP per record. -/
def importLoop (fail : Nat → Bool) (now : Nat → Nat) :
    List Job → Nat → ImportState → ImportState
  | [], _, st => st
  | job :: rest, n, st =>
    if fail n then
      importLoop fail now rest (n + 1) { st with errors := st.errors + 1 }
    else
      match upsert st.db job (now n) with
      | (db', true) =>
        importLoop fail now rest (n + 1)
          { st with db := db', inserted := st.inserted + 1 }
      | (db', false) =>
        importLoop fail now rest (n + 1)
          { st with db := db', updated := st.updated + 1 }

/-- The import run `importJobs(inputFile)` over parsed content `data`, from the
store state `db0` and zeroed counters. -/
def importJobs (fail : Nat → Bool) (now : Nat → Nat) (db0 : List Row)
    (data : ScraperOutput) : ImportState :=
  importLoop fail now data.jobs 0 ⟨db0, 0, 0, 0⟩

theorem importLoop_counts (fail : Nat → Bool) (now : Nat → Nat) :
    ∀ (jobs : List Job) (n : Nat) (st : ImportState),
    (importLoop fail now jobs n st).inserted +
      (importLoop fail now jobs n st).updated +
      (importLoop fail now jobs n st).errors =
    st.inserted + st.updated + st.errors + jobs.length
  | [], _, st => by
    rw [importLoop, List.length_nil]
    omega
  | job :: rest, n, st => by
    rw [importLoop]
    by_cases hf : fail n = true
    · rw [if_pos hf, importLoop_counts fail now rest (n + 1) _,
        List.length_cons]
      show st.inserted + st.updated + (st.errors + 1) + rest.length = _
      omega
    · rw [if_neg hf]
      rcases upsert st.db job (now n) with ⟨db', keep⟩
      cases keep
      · rw [importLoop_counts fail now rest (n + 1) _, List.length_cons]
        show st.inserted + (st.updated + 1) + st.errors + rest.length = _
        omega
      · rw [importLoop_counts fail now rest (n + 1) _, List.length_cons]
        show st.inserted + 1 + st.updated + st.errors + rest.length = _
        omega

/-- Claim C10: every input record feeds exactly one of the three counters,
whatever the store's per-record success/failure pattern:
`inserted + updated + errors` equals the number of records in the input. -/
theorem import_counts_partition (fail : Nat → Bool) (now : Nat → Nat)
    (db0 : List Row) (data : ScraperOutput) :
    (importJobs fail now db0 data).inserted +
      (importJobs fail now db0 data).updated +
      (importJobs fail now db0 data).errors = data.jobs.length := by
  have h := importLoop_counts fail now data.jobs 0 ⟨db0, 0, 0, 0⟩
  simpa using h

end DevnetScraper
